import Mathlib

/-!
Verification of the resumable workflow graph engine of the ask-my-pdf
repository.

The repository's sample applications (src/human-loop, src/dynamic_interrupts)
build workflow graphs of node functions, run them thread-by-thread, pause on
interrupts and resume with externally supplied values.  The engine that drives
the traversal (start, resume, checkpointing, the event channel) is the
LangGraph library, whose code is not part of the repository: only its callers
and the node functions are.  Following the specification, the engine is
modelled here from the spec text; the node functions, routing functions and
graph shapes are translated from the repository's source files.
-/

set_option maxRecDepth 4000

/-- Python-like values stored in a workflow state: strings, integers, lists
and dictionaries (the shapes the sample apps put into state and payloads). -/
inductive Value where
  | str : String → Value
  | int : Int → Value
  | list : List Value → Value
  | dict : List (String × Value) → Value

/-- Ordered string-keyed association list, the model of a Python dict. -/
abbrev StateMap := List (String × Value)

/-- Look a key up in an association list (model of dict lookup / dict.get). -/
def lookupKey {α : Type} : List (String × α) → String → Option α
  | [], _ => none
  | (k, v) :: rest, key => if k = key then some v else lookupKey rest key

/-- Set a key in an association list: replace the first binding of the key,
or append a new binding when the key is absent (model of dict assignment). -/
def setKey {α : Type} : List (String × α) → String → α → List (String × α)
  | [], key, v => [(key, v)]
  | (k, w) :: rest, key, v =>
      if k = key then (key, v) :: rest else (k, w) :: setKey rest key v

/-- Modelled from the spec: merge a partial-state update U into `variables` —
keys in U overwrite existing keys, keys not present in U are preserved. -/
def mergeUpdate (vars : StateMap) : StateMap → StateMap
  | [] => vars
  | (k, v) :: rest => mergeUpdate (setKey vars k v) rest

/-- Result of one node invocation: a partial-state update to merge, an
interrupt signal carrying a payload, or a terminal error. -/
inductive NodeResult where
  | update : StateMap → NodeResult
  | interrupt : Value → NodeResult
  | error : String → NodeResult

/-- A node function: given the current variables and an optional resume value,
it returns the custom events it dispatched during the invocation together
with its result. -/
abbrev NodeFn := StateMap → Option Value → List Value × NodeResult

/-- An edge out of a node: a static successor, or a conditional edge holding a
routing function together with an explicit label-to-successor table. -/
inductive Edge where
  | static : String → Edge
  | conditional : (StateMap → Except String String) → List (String × String) → Edge

/-- Modelled from the spec: the immutable workflow definition — nodes, edges
and the entry node. -/
structure WorkflowDefinition where
  nodes : List (String × NodeFn)
  edges : List (String × Edge)
  entry : String

/-- The terminal sentinel node name (END in the source files). -/
def endSentinel : String := "__end__"

/-- Thread status, as listed by the spec. -/
inductive Status where
  | idle | running | interrupted | completed | failed
deriving DecidableEq

/-- Kinds of events emitted on the per-thread event channel. -/
inductive EventKind where
  | started | node_completed | custom | interrupted | completed | failed
deriving DecidableEq

/-- One emitted event: its kind, the node it concerns (when applicable) and
its payload (the resume value for `started`, the interrupt or custom payload
otherwise). -/
structure Event where
  kind : EventKind
  node : Option String
  payload : Option Value

/-- Modelled from the spec: the per-thread execution snapshot owned by the
checkpoint store.  The thread id is the key under which the snapshot is
stored. -/
structure ThreadState where
  currentNode : String
  vars : StateMap
  status : Status
  pendingInterrupt : Option Value
  history : List Event

/-- The checkpoint store: a mapping from thread id to its latest snapshot. -/
abbrev Store := List (String × ThreadState)

/-- Outcome of a `start` or `resume` call, as in the spec. -/
inductive RunOutcome where
  | completed : StateMap → RunOutcome
  | interrupted : Value → RunOutcome
  | failed : String → RunOutcome

/-- Caller-protocol errors surfaced by the engine. -/
inductive EngineError where
  | alreadyRunning | notInterrupted | unknownThread
deriving DecidableEq

/-- Result of one traversal: the final thread snapshot and the outcome. -/
structure TraverseResult where
  thread : ThreadState
  outcome : RunOutcome

/-- Outcome of one engine step: either halt with a final snapshot and run
outcome, or continue the traversal at a new current node. -/
inductive StepOutcome where
  | halt : ThreadState → RunOutcome → StepOutcome
  | next : ThreadState → StepOutcome

/-- Modelled from the spec: resolve the successor of a node after its update
has been merged.  A static edge yields its fixed target; a conditional edge
applies the routing function to the post-merge state and looks the returned
label up in the successor table — an unmapped label is a routing error.  A
node with no outgoing edge is terminal. -/
def resolveNext (wf : WorkflowDefinition) (node : String) (vars : StateMap) :
    Except String String :=
  match lookupKey wf.edges node with
  | none => .ok endSentinel
  | some (.static t) => .ok t
  | some (.conditional router table) =>
      match router vars with
      | .error e => .error e
      | .ok lbl =>
          match lookupKey table lbl with
          | some t => .ok t
          | none => .error ("unmapped label: " ++ lbl)

/-- Modelled from the spec: one iteration of the traversal loop of §4.2 —
invoke the current node with the variables and the one-shot resume value,
then either interrupt, fail, complete, or move to the resolved successor. -/
def stepNode (wf : WorkflowDefinition) (ts : ThreadState) (rv : Option Value) :
    StepOutcome :=
  match lookupKey wf.nodes ts.currentNode with
  | none =>
      .halt { ts with
                status := .failed
                history := ts.history ++ [⟨.failed, some ts.currentNode, none⟩] }
        (.failed "unknown node")
  | some f =>
      match f ts.vars rv with
      | (evs, .interrupt p) =>
          .halt { ts with
                    status := .interrupted
                    pendingInterrupt := some p
                    history := ts.history ++ ⟨.started, some ts.currentNode, rv⟩ ::
                      evs.map (fun q => ⟨.custom, some ts.currentNode, some q⟩) ++
                      [⟨.interrupted, some ts.currentNode, some p⟩] }
            (.interrupted p)
      | (evs, .error e) =>
          .halt { ts with
                    status := .failed
                    history := ts.history ++ ⟨.started, some ts.currentNode, rv⟩ ::
                      evs.map (fun q => ⟨.custom, some ts.currentNode, some q⟩) ++
                      [⟨.failed, some ts.currentNode, none⟩] }
            (.failed e)
      | (evs, .update u) =>
          match resolveNext wf ts.currentNode (mergeUpdate ts.vars u) with
          | .error e =>
              .halt { ts with
                        status := .failed
                        vars := mergeUpdate ts.vars u
                        history := ts.history ++ ⟨.started, some ts.currentNode, rv⟩ ::
                          evs.map (fun q => ⟨.custom, some ts.currentNode, some q⟩) ++
                          [⟨.node_completed, some ts.currentNode, none⟩,
                           ⟨.failed, some ts.currentNode, none⟩] }
                (.failed e)
          | .ok nxt =>
              if nxt = endSentinel then
                .halt { ts with
                          status := .completed
                          vars := mergeUpdate ts.vars u
                          currentNode := endSentinel
                          history := ts.history ++ ⟨.started, some ts.currentNode, rv⟩ ::
                            evs.map (fun q => ⟨.custom, some ts.currentNode, some q⟩) ++
                            [⟨.node_completed, some ts.currentNode, none⟩,
                             ⟨.completed, none, none⟩] }
                  (.completed (mergeUpdate ts.vars u))
              else
                .next { ts with
                          vars := mergeUpdate ts.vars u
                          currentNode := nxt
                          history := ts.history ++ ⟨.started, some ts.currentNode, rv⟩ ::
                            evs.map (fun q => ⟨.custom, some ts.currentNode, some q⟩) ++
                            [⟨.node_completed, some ts.currentNode, none⟩] }

/-- Modelled from the spec: the traversal loop.  Only the first invocation
receives the resume value; every later one receives none.  The fuel bounds
the number of node invocations (the spec leaves cycles unbounded; all claims
are either fuel-generic or about runs that terminate within the fuel). -/
def traverseLoop (wf : WorkflowDefinition) : Nat → ThreadState → Option Value → TraverseResult
  | 0, ts, _ => ⟨ts, .failed "out of fuel"⟩
  | fuel + 1, ts, rv =>
      match stepNode wf ts rv with
      | .halt ts₂ out => ⟨ts₂, out⟩
      | .next ts₂ => traverseLoop wf fuel ts₂ none

/-- A thread id may be started when it is absent or not currently running. -/
def canStart (store : Store) (tid : String) : Bool :=
  match lookupKey store tid with
  | none => true
  | some ts => decide (ts.status ≠ .running)

/-- Modelled from the spec: `start(threadId, initialState)` — fails with
`AlreadyRunning` when the stored status is `running`; otherwise creates or
resets the thread snapshot with the initial variables and the entry node,
traverses, and saves the resulting snapshot under the thread id. -/
def startThread (wf : WorkflowDefinition) (fuel : Nat) (store : Store)
    (tid : String) (init : StateMap) : Except EngineError (RunOutcome × Store) :=
  if canStart store tid then
    let r := traverseLoop wf fuel
      { currentNode := wf.entry, vars := init, status := .running,
        pendingInterrupt := none, history := [] } none
    .ok (r.outcome, setKey store tid r.thread)
  else
    .error .alreadyRunning

/-- Modelled from the spec: `resume(threadId, resumeValue)` — fails with
`UnknownThread` when the id is absent and with `NotInterrupted` when the
stored status is not `interrupted`; otherwise clears the pending interrupt,
sets the status to running, re-invokes the current node with the resume
value and continues the traversal. -/
def resumeThread (wf : WorkflowDefinition) (fuel : Nat) (store : Store)
    (tid : String) (v : Value) : Except EngineError (RunOutcome × Store) :=
  match lookupKey store tid with
  | none => .error .unknownThread
  | some ts =>
      if ts.status = .interrupted then
        let r := traverseLoop wf fuel
          { ts with status := .running, pendingInterrupt := none } (some v)
        .ok (r.outcome, setKey store tid r.thread)
      else
        .error .notInterrupted

/-- The outcome part of an engine call. -/
def runResult (r : Except EngineError (RunOutcome × Store)) :
    Except EngineError RunOutcome :=
  r.map Prod.fst

/-- The store part of an engine call. -/
def runStore (r : Except EngineError (RunOutcome × Store)) : Option Store :=
  (r.map Prod.snd).toOption

/-- Python truthiness for the values a state can hold (used by the emptiness
check on the input content in step_2). -/
def isFalsy : Value → Bool
  | .str s => s.isEmpty
  | .int n => n == 0
  | .list l => l.isEmpty
  | .dict d => d.isEmpty

/-- Python `len` on the value shapes that support it. -/
def pyLen : Value → Option Nat
  | .str s => some s.length
  | .list l => some l.length
  | .dict d => some d.length
  | .int _ => none

/-- Node `generate_summary` of src/human-loop/streamlit_chat_app.py and
src/human-loop/graph_with_approve_and_change_state.py: returns the fixed
summary as a partial-state update. -/
def generate_summary : NodeFn := fun _ _ =>
  ([], .update [("summary", .str "The cat sat on the mat and looked at the stars.")])

/-- Node `ask_for_review` of the same two files: reads the summary from the
state (a missing key is a KeyError), interrupts with the review-question
payload when there is no resume value, and merges the resume value as the
review decision when resumed. -/
def ask_for_review : NodeFn := fun vars rv =>
  match lookupKey vars "summary" with
  | none => ([], .error "KeyError: summary")
  | some s =>
      match rv with
      | some v => ([], .update [("review_decision", v)])
      | none =>
          ([], .interrupt (.dict
            [("message", .str "🧐 Would you like to review the summary?"),
             ("summary", s),
             ("options", .list [.str "yes", .str "no"]),
             ("interruption_name", .str "ask_for_review")]))

/-- Node `human_review` of the same two files: interrupts with the edit task
payload, and merges the resume value as the new summary when resumed. -/
def human_review : NodeFn := fun vars rv =>
  match lookupKey vars "summary" with
  | none => ([], .error "KeyError: summary")
  | some s =>
      match rv with
      | some v => ([], .update [("summary", v)])
      | none =>
          ([], .interrupt (.dict
            [("task", .str "✍️ Please edit this summary:"),
             ("generated_summary", s)]))

/-- Node `finish` of the same two files: returns the state unchanged. -/
def finish : NodeFn := fun vars _ => ([], .update vars)

/-- ASCII lowercasing of one character (the model of Python str.lower on the
ASCII strings the apps compare). -/
def pyCharLower (c : Char) : Char :=
  if 65 ≤ c.toNat ∧ c.toNat ≤ 90 then Char.ofNat (c.toNat + 32) else c

/-- Model of Python str.lower. -/
def pyLower (s : String) : String := ⟨s.data.map pyCharLower⟩

/-- Routing function `route_based_on_decision` of the same two files:
routes to review when the lowercased review decision equals yes, else to
skip (a non-string decision would make Python `.lower()` raise). -/
def route_based_on_decision (vars : StateMap) : Except String String :=
  match (lookupKey vars "review_decision").getD (.str "") with
  | .str s => .ok (if pyLower s = "yes" then "review" else "skip")
  | _ => .error "AttributeError: lower"

/-- The graph built by src/human-loop/streamlit_chat_app.py and
src/human-loop/graph_with_approve_and_change_state.py: entry
generate_summary, a static edge to ask_for_review, a conditional edge on
route_based_on_decision, and human_review feeding finish (finish has no
outgoing edge and is therefore terminal). -/
def reviewGraph : WorkflowDefinition where
  nodes := [("generate_summary", generate_summary),
            ("ask_for_review", ask_for_review),
            ("human_review", human_review),
            ("finish", finish)]
  edges := [("generate_summary", .static "ask_for_review"),
            ("ask_for_review", .conditional route_based_on_decision
               [("review", "human_review"), ("skip", "finish")]),
            ("human_review", .static "finish")]
  entry := "generate_summary"

/-- Node `step_1` of src/dynamic_interrupts/graphwith_files.py: dispatches
the on_init_files custom event with the three file contents and returns the
state unchanged (a missing key is a KeyError). -/
def step_1 : NodeFn := fun vars _ =>
  match lookupKey vars "sas_content", lookupKey vars "input_content",
        lookupKey vars "output_content" with
  | some s, some i, some o =>
      ([.dict [("sas_content", s), ("input_content", i), ("output_content", o)]],
       .update vars)
  | _, _, _ => ([], .error "KeyError")

/-- Node `step_2` of src/dynamic_interrupts/graphwith_files.py: when the
input content is empty it dispatches the on_waiting_user_resp custom event
and raises NodeInterrupt; otherwise it dispatches the on_conditional_check
event with the input length and returns the state unchanged. -/
def step_2 : NodeFn := fun vars _ =>
  match lookupKey vars "input_content" with
  | none => ([], .error "KeyError")
  | some v =>
      if isFalsy v then
        ([.str "Input file appears empty, please upload valid content."],
         .interrupt (.str "Empty input_content: user intervention required."))
      else
        match pyLen v with
        | some n => ([.dict [("input_length", .int n)]], .update vars)
        | none => ([], .error "TypeError: len")

/-- Node `step_3` of src/dynamic_interrupts/graphwith_files.py: dispatches
the on_complete_files custom event with the three content lengths and
returns the state unchanged. -/
def step_3 : NodeFn := fun vars _ =>
  match lookupKey vars "sas_content", lookupKey vars "input_content",
        lookupKey vars "output_content" with
  | some s, some i, some o =>
      match pyLen s, pyLen i, pyLen o with
      | some a, some b, some c =>
          ([.dict [("sas_len", .int a), ("input_len", .int b), ("output_len", .int c)]],
           .update vars)
      | _, _, _ => ([], .error "TypeError: len")
  | _, _, _ => ([], .error "KeyError")

/-- The linear graph built by src/dynamic_interrupts/graphwith_files.py:
step_1 to step_2 to step_3 to END. -/
def filesGraph : WorkflowDefinition where
  nodes := [("step_1", step_1), ("step_2", step_2), ("step_3", step_3)]
  edges := [("step_1", .static "step_2"), ("step_2", .static "step_3"),
            ("step_3", .static endSentinel)]
  entry := "step_1"

/-- Modelled from the spec: the pure fold over the node functions in
traversal order — invoke the node, merge its update, move to the successor,
until the terminal sentinel.  It is none when a node interrupts or errors,
routing fails, a node is missing, or the fuel runs out. -/
def pureFold (wf : WorkflowDefinition) : Nat → String → StateMap → Option StateMap
  | 0, _, _ => none
  | fuel + 1, node, vars =>
      match lookupKey wf.nodes node with
      | none => none
      | some f =>
          match f vars none with
          | (_, .update u) =>
              match resolveNext wf node (mergeUpdate vars u) with
              | .ok nxt => if nxt = endSentinel then some (mergeUpdate vars u)
                           else pureFold wf fuel nxt (mergeUpdate vars u)
              | .error _ => none
          | (_, .interrupt _) => none
          | (_, .error _) => none

/-- Boolean list test: the first list is a prefix of the second. -/
def isPrefixB : List Char → List Char → Bool
  | [], _ => true
  | _ :: _, [] => false
  | p :: ps, x :: xs => decide (p = x) && isPrefixB ps xs

/-- Model of Python str.endswith: the suffix read backwards is a prefix of
the string read backwards. -/
def pyEndsWith (s suf : String) : Bool :=
  isPrefixB suf.data.reverse s.data.reverse

/-- The error read_file_content actually raises on the xlsx branch. -/
inductive FileReadError where
  | nameError : FileReadError
deriving DecidableEq

/-- Function `read_file_content` of src/dynamic_interrupts/helpers.py.  The
file is its lowercased name plus its raw bytes; `decode` stands for Python's
bytes.decode("utf-8", errors="ignore"), which is total and never raises (so
the fallback try/except never takes its except arm).  On the .xlsx branch
the source references BytesIO, which is never imported, so the invocation
raises NameError before any spreadsheet handling happens. -/
def read_file_content (decode : List Nat → String) (name : String)
    (data : List Nat) : Except FileReadError String :=
  let lowered := pyLower name
  if pyEndsWith lowered ".txt" || pyEndsWith lowered ".csv" then
    .ok (decode data)
  else if pyEndsWith lowered ".xlsx" then
    .error .nameError
  else
    .ok (decode data)

/-! ### Basic lemmas about the association-list operations -/

theorem lookupKey_setKey_same {α : Type} (l : List (String × α)) (k : String) (v : α) :
    lookupKey (setKey l k v) k = some v := by
  induction l with
  | nil => simp [setKey, lookupKey]
  | cons hd tl ih =>
      obtain ⟨k₀, v₀⟩ := hd
      by_cases h : k₀ = k
      · simp [setKey, h, lookupKey]
      · simp [setKey, h, lookupKey, ih]

theorem lookupKey_setKey_other {α : Type} (l : List (String × α)) (k key : String)
    (v : α) (h : k ≠ key) : lookupKey (setKey l k v) key = lookupKey l key := by
  induction l with
  | nil => simp [setKey, lookupKey, h]
  | cons hd tl ih =>
      obtain ⟨k₀, v₀⟩ := hd
      by_cases h₀ : k₀ = k
      · subst h₀
        simp [setKey, lookupKey, h]
      · simp only [setKey, h₀, if_false]
        by_cases h₁ : k₀ = key
        · simp [lookupKey, h₁]
        · simp [lookupKey, h₁, ih]

theorem lookupKey_mergeUpdate_absent (u : StateMap) (vars : StateMap) (key : String)
    (h : lookupKey u key = none) :
    lookupKey (mergeUpdate vars u) key = lookupKey vars key := by
  induction u generalizing vars with
  | nil => simp [mergeUpdate]
  | cons hd tl ih =>
      obtain ⟨k, v⟩ := hd
      simp only [lookupKey] at h
      by_cases hk : k = key
      · simp [hk] at h
      · simp only [hk, if_false] at h
        simp only [mergeUpdate]
        rw [ih _ h, lookupKey_setKey_other _ _ _ _ hk]

theorem lookupKey_mergeUpdate_present (u : StateMap) (vars : StateMap) (key : String)
    (v : Value) (hnd : (u.map Prod.fst).Nodup) (h : lookupKey u key = some v) :
    lookupKey (mergeUpdate vars u) key = some v := by
  induction u generalizing vars with
  | nil => simp [lookupKey] at h
  | cons hd tl ih =>
      obtain ⟨k, w⟩ := hd
      simp only [List.map_cons, List.nodup_cons] at hnd
      simp only [lookupKey] at h
      by_cases hk : k = key
      · subst hk
        simp only [if_true] at h
        obtain rfl : w = v := by injection h
        simp only [mergeUpdate]
        have habs : lookupKey tl k = none := by
          rcases hl : lookupKey tl k with _ | w₂
          · rfl
          · exfalso
            apply hnd.1
            clear ih h hnd
            induction tl with
            | nil => simp [lookupKey] at hl
            | cons hd₂ tl₂ ih₂ =>
                obtain ⟨k₂, v₂⟩ := hd₂
                simp only [lookupKey] at hl
                by_cases hk₂ : k₂ = k
                · subst hk₂
                  simp
                · simp only [hk₂, if_false] at hl
                  simp [ih₂ hl]
        rw [lookupKey_mergeUpdate_absent _ _ _ habs, lookupKey_setKey_same]
      · simp only [hk, if_false] at h
        simp only [mergeUpdate]
        exact ih _ hnd.2 h

/-! ### Lemmas about one engine step and the traversal loop -/

/-- The thread snapshot carried by a step outcome. -/
def stepTS : StepOutcome → ThreadState
  | .halt ts _ => ts
  | .next ts => ts

theorem stepNode_history (wf : WorkflowDefinition) (ts : ThreadState) (rv : Option Value) :
    ∃ ext, (stepTS (stepNode wf ts rv)).history = ts.history ++ ext := by
  unfold stepNode
  split
  · exact ⟨_, rfl⟩
  · split
    · simp only [stepTS, List.append_assoc, List.cons_append]
      exact ⟨_, rfl⟩
    · simp only [stepTS, List.append_assoc, List.cons_append]
      exact ⟨_, rfl⟩
    · split
      · simp only [stepTS, List.append_assoc, List.cons_append]
        exact ⟨_, rfl⟩
      · split
        · simp only [stepTS, List.append_assoc, List.cons_append]
          exact ⟨_, rfl⟩
        · simp only [stepTS, List.append_assoc, List.cons_append]
          exact ⟨_, rfl⟩

theorem traverseLoop_history (wf : WorkflowDefinition) (fuel : Nat) (ts : ThreadState)
    (rv : Option Value) :
    ∃ ext, (traverseLoop wf fuel ts rv).thread.history = ts.history ++ ext := by
  induction fuel generalizing ts rv with
  | zero => exact ⟨[], by simp [traverseLoop]⟩
  | succ fuel ih =>
      unfold traverseLoop
      cases hstep : stepNode wf ts rv with
      | halt ts₂ out =>
          obtain ⟨ext, hx⟩ := stepNode_history wf ts rv
          rw [hstep] at hx
          exact ⟨ext, hx⟩
      | next ts₂ =>
          obtain ⟨ext₁, hx₁⟩ := stepNode_history wf ts rv
          rw [hstep] at hx₁
          simp only [stepTS] at hx₁
          obtain ⟨ext₂, hx₂⟩ := ih ts₂ none
          refine ⟨ext₁ ++ ext₂, ?_⟩
          simp only [hx₂, hx₁, List.append_assoc]

theorem stepNode_interrupted (wf : WorkflowDefinition) (ts ts₂ : ThreadState)
    (rv : Option Value) (P : Value)
    (h : stepNode wf ts rv = .halt ts₂ (.interrupted P)) :
    ts₂.currentNode = ts.currentNode ∧ ts₂.status = .interrupted ∧
    ts₂.pendingInterrupt = some P ∧
    (∃ f, lookupKey wf.nodes ts.currentNode = some f) ∧
    ∃ customs : List Value,
      ts₂.history = ts.history ++ ⟨.started, some ts.currentNode, rv⟩ ::
        (customs.map fun q => Event.mk .custom (some ts.currentNode) (some q)) ++
        [⟨.interrupted, some ts.currentNode, some P⟩] := by
  unfold stepNode at h
  split at h
  · simp at h
  · rename_i f heq
    split at h
    · rename_i evs p hpair
      obtain ⟨h₁, h₂⟩ := StepOutcome.halt.inj h
      obtain rfl : p = P := RunOutcome.interrupted.inj h₂
      subst h₁
      exact ⟨rfl, rfl, rfl, ⟨f, heq⟩, evs, rfl⟩
    · simp at h
    · split at h
      · simp at h
      · split at h <;> simp at h

theorem traverseLoop_interrupted (wf : WorkflowDefinition) (fuel : Nat)
    (ts ts₂ : ThreadState) (rv : Option Value) (P : Value)
    (h : traverseLoop wf fuel ts rv = ⟨ts₂, .interrupted P⟩) :
    ts₂.status = .interrupted ∧ ts₂.pendingInterrupt = some P ∧
    (∃ f, lookupKey wf.nodes ts₂.currentNode = some f) ∧
    ∃ (pre : List Event) (rv₀ : Option Value) (customs : List Value),
      ts₂.history = ts.history ++ pre ++ ⟨.started, some ts₂.currentNode, rv₀⟩ ::
        (customs.map fun q => Event.mk .custom (some ts₂.currentNode) (some q)) ++
        [⟨.interrupted, some ts₂.currentNode, some P⟩] := by
  induction fuel generalizing ts rv with
  | zero =>
      unfold traverseLoop at h
      obtain ⟨-, h₂⟩ := TraverseResult.mk.inj h
      simp at h₂
  | succ fuel ih =>
      unfold traverseLoop at h
      cases hstep : stepNode wf ts rv with
      | halt ts₃ out =>
          rw [hstep] at h
          obtain ⟨h₁, h₂⟩ := TraverseResult.mk.inj h
          rw [h₁, h₂] at hstep
          obtain ⟨hcur, hst, hpend, hf, customs, hh⟩ :=
            stepNode_interrupted wf ts ts₂ rv P hstep
          refine ⟨hst, hpend, ?_, ?_⟩
          · rw [hcur]
            exact hf
          · refine ⟨[], rv, customs, ?_⟩
            rw [hcur]
            simpa using hh
      | next ts₃ =>
          rw [hstep] at h
          obtain ⟨hst, hpend, hf, pre, rv₀, customs, hh⟩ := ih ts₃ none h
          obtain ⟨ext₁, hx₁⟩ := stepNode_history wf ts rv
          rw [hstep] at hx₁
          simp only [stepTS] at hx₁
          rw [hx₁] at hh
          refine ⟨hst, hpend, hf, ext₁ ++ pre, rv₀, customs, ?_⟩
          simp [hh]

theorem stepNode_first_event (wf : WorkflowDefinition) (ts : ThreadState)
    (rv : Option Value) (f : NodeFn)
    (h : lookupKey wf.nodes ts.currentNode = some f) :
    ∃ ext, (stepTS (stepNode wf ts rv)).history =
      ts.history ++ ⟨.started, some ts.currentNode, rv⟩ :: ext := by
  unfold stepNode
  split
  · rename_i hnone
    rw [h] at hnone
    cases hnone
  · split
    · simp only [stepTS, List.cons_append, List.append_assoc]
      exact ⟨_, rfl⟩
    · simp only [stepTS, List.cons_append, List.append_assoc]
      exact ⟨_, rfl⟩
    · split
      · simp only [stepTS, List.cons_append, List.append_assoc]
        exact ⟨_, rfl⟩
      · split
        · simp only [stepTS, List.cons_append, List.append_assoc]
          exact ⟨_, rfl⟩
        · simp only [stepTS, List.cons_append, List.append_assoc]
          exact ⟨_, rfl⟩

theorem traverseLoop_first_event (wf : WorkflowDefinition) (fuel : Nat)
    (ts : ThreadState) (rv : Option Value) (f : NodeFn)
    (h : lookupKey wf.nodes ts.currentNode = some f) :
    ∃ ext, (traverseLoop wf (fuel + 1) ts rv).thread.history =
      ts.history ++ ⟨.started, some ts.currentNode, rv⟩ :: ext := by
  unfold traverseLoop
  cases hstep : stepNode wf ts rv with
  | halt ts₂ out =>
      obtain ⟨ext, hx⟩ := stepNode_first_event wf ts rv f h
      rw [hstep] at hx
      exact ⟨ext, hx⟩
  | next ts₂ =>
      obtain ⟨ext₁, hx₁⟩ := stepNode_first_event wf ts rv f h
      rw [hstep] at hx₁
      simp only [stepTS] at hx₁
      obtain ⟨ext₂, hx₂⟩ := traverseLoop_history wf fuel ts₂ none
      rw [hx₁] at hx₂
      exact ⟨ext₁ ++ ext₂, by simp [hx₂]⟩

theorem pureFold_sim (wf : WorkflowDefinition) (fuel : Nat) :
    ∀ (node : String) (vars final : StateMap) (st : Status) (pend : Option Value)
      (hist : List Event),
      pureFold wf fuel node vars = some final →
      (traverseLoop wf fuel ⟨node, vars, st, pend, hist⟩ none).outcome =
        .completed final := by
  induction fuel with
  | zero =>
      intro node vars final st pend hist h
      simp [pureFold] at h
  | succ fuel ih =>
      intro node vars final st pend hist h
      unfold pureFold at h
      split at h
  /- node not found -/
      · cases h
      · rename_i f heq
        split at h
        · rename_i evs u hpair
          split at h
          · rename_i nxt hres
            split at h
            · rename_i hend
              injection h with h
              subst h
              simp [traverseLoop, stepNode, heq, hpair, hres, hend]
            · rename_i hend
              simp only [traverseLoop, stepNode, heq, hpair, hres, hend, if_false]
              exact ih nxt (mergeUpdate vars u) final st pend _ h
          · cases h
        · cases h
        · cases h

/-! ### Engine-level unfolding lemmas -/

theorem startThread_ok (wf : WorkflowDefinition) (fuel : Nat) (store : Store)
    (tid : String) (init : StateMap) (out : RunOutcome) (store₂ : Store)
    (h : startThread wf fuel store tid init = .ok (out, store₂)) :
    (traverseLoop wf fuel
        ⟨wf.entry, init, .running, none, []⟩ none).outcome = out ∧
    store₂ = setKey store tid
      (traverseLoop wf fuel ⟨wf.entry, init, .running, none, []⟩ none).thread := by
  unfold startThread at h
  split at h
  · obtain ⟨h₁, h₂⟩ := Prod.mk.injEq .. ▸ Except.ok.inj h
    exact ⟨h₁, h₂.symm⟩
  · cases h

theorem resumeThread_ok (wf : WorkflowDefinition) (fuel : Nat) (store : Store)
    (tid : String) (v : Value) (ts : ThreadState)
    (h₁ : lookupKey store tid = some ts) (h₂ : ts.status = .interrupted) :
    resumeThread wf fuel store tid v =
      .ok ((traverseLoop wf fuel
              { ts with status := .running, pendingInterrupt := none } (some v)).outcome,
           setKey store tid
             (traverseLoop wf fuel
               { ts with status := .running, pendingInterrupt := none } (some v)).thread) := by
  unfold resumeThread
  rw [h₁]
  simp [h₂]

/-- The payload of the ask_for_review interrupt of
src/human-loop/graph_with_approve_and_change_state.py (and the identical
streamlit_chat_app.py), for the generated summary. -/
def askReviewPayload : Value :=
  .dict [("message", .str "🧐 Would you like to review the summary?"),
         ("summary", .str "The cat sat on the mat and looked at the stars."),
         ("options", .list [.str "yes", .str "no"]),
         ("interruption_name", .str "ask_for_review")]

/-- The payload of the human_review interrupt of the same two files. -/
def humanReviewPayload : Value :=
  .dict [("task", .str "✍️ Please edit this summary:"),
         ("generated_summary", .str "The cat sat on the mat and looked at the stars.")]

/-! ### The claims -/

/-- C2: whenever a traversal started by `start` ends with a node signalling an
interrupt with payload P, the engine persists the thread snapshot under its
thread id with status interrupted and pendingInterrupt P, returns
Interrupted(P) to the caller, and invokes no node after the interrupting
one: the persisted history ends with the interrupted event of the node that
signalled it (every invocation records a started event first, so any later
invocation would appear after that event), and the next events can only come
from an explicit resume for that thread id. -/
theorem interrupt_persists_and_stops (wf : WorkflowDefinition) (fuel : Nat)
    (store : Store) (tid : String) (init : StateMap) (P : Value) (store₂ : Store)
    (h : startThread wf fuel store tid init = .ok (.interrupted P, store₂)) :
    ∃ ts₂, lookupKey store₂ tid = some ts₂ ∧
      ts₂.status = .interrupted ∧ ts₂.pendingInterrupt = some P ∧
      ∃ (pre : List Event) (rv₀ : Option Value) (customs : List Value),
        ts₂.history = pre ++ ⟨.started, some ts₂.currentNode, rv₀⟩ ::
          (customs.map fun q => Event.mk .custom (some ts₂.currentNode) (some q)) ++
          [⟨.interrupted, some ts₂.currentNode, some P⟩] := by
  obtain ⟨hout, hstore⟩ := startThread_ok wf fuel store tid init _ store₂ h
  have hrun : traverseLoop wf fuel ⟨wf.entry, init, .running, none, []⟩ none =
      ⟨(traverseLoop wf fuel ⟨wf.entry, init, .running, none, []⟩ none).thread,
       .interrupted P⟩ := by
    rw [← hout]
  obtain ⟨hst, hpend, -, pre, rv₀, customs, hh⟩ :=
    traverseLoop_interrupted wf fuel _ _ none P hrun
  refine ⟨_, ?_, hst, hpend, pre, rv₀, customs, ?_⟩
  · rw [hstore]
    exact lookupKey_setKey_same store tid _
  · simpa using hh

/-- C2 witness: running the graph of src/dynamic_interrupts/graphwith_files.py
with an empty input content interrupts at step_2 with the NodeInterrupt
message, and the persisted snapshot has the claimed shape. -/
theorem interrupt_persists_and_stops_witness :
    ∃ store₂,
      startThread filesGraph 5 [] "t"
        [("sas_content", .str "s"), ("input_content", .str ""),
         ("output_content", .str "o")] =
        .ok (.interrupted (.str "Empty input_content: user intervention required."),
             store₂) ∧
      ∃ ts₂, lookupKey store₂ "t" = some ts₂ ∧
        ts₂.status = .interrupted ∧
        ts₂.pendingInterrupt =
          some (.str "Empty input_content: user intervention required.") ∧
        ∃ (pre : List Event) (rv₀ : Option Value) (customs : List Value),
          ts₂.history = pre ++ ⟨.started, some ts₂.currentNode, rv₀⟩ ::
            (customs.map fun q => Event.mk .custom (some ts₂.currentNode) (some q)) ++
            [⟨.interrupted, some ts₂.currentNode,
              some (.str "Empty input_content: user intervention required.")⟩] :=
  ⟨_, rfl, interrupt_persists_and_stops filesGraph 5 [] "t"
    [("sas_content", .str "s"), ("input_content", .str ""),
     ("output_content", .str "o")] _ _ rfl⟩

/-- C1: when a start traversal returns Interrupted(P), the persisted current
node is exactly the node that produced P (it is the node named by the
interrupted event that closes the history), and a subsequent resume for the
same thread id re-invokes exactly that node — the first event of the resumed
traversal is a started event for that same node carrying the resume value V
as the value passed into the invocation — after which traversal continues
from that node. -/
theorem resume_reinvokes_interrupting_node (wf : WorkflowDefinition) (fuel : Nat)
    (store : Store) (tid : String) (init : StateMap) (P : Value) (store₂ : Store)
    (h : startThread wf fuel store tid init = .ok (.interrupted P, store₂)) :
    ∃ ts₂, lookupKey store₂ tid = some ts₂ ∧
      (∃ (pre : List Event) (rv₀ : Option Value) (customs : List Value),
        ts₂.history = pre ++ ⟨.started, some ts₂.currentNode, rv₀⟩ ::
          (customs.map fun q => Event.mk .custom (some ts₂.currentNode) (some q)) ++
          [⟨.interrupted, some ts₂.currentNode, some P⟩]) ∧
      ∀ (V : Value) (g : Nat), ∃ out store₃ ts₃ ext,
        resumeThread wf (g + 1) store₂ tid V = .ok (out, store₃) ∧
        lookupKey store₃ tid = some ts₃ ∧
        ts₃.history = ts₂.history ++ ⟨.started, some ts₂.currentNode, some V⟩ :: ext := by
  obtain ⟨hout, hstore⟩ := startThread_ok wf fuel store tid init _ store₂ h
  have hrun : traverseLoop wf fuel ⟨wf.entry, init, .running, none, []⟩ none =
      ⟨(traverseLoop wf fuel ⟨wf.entry, init, .running, none, []⟩ none).thread,
       .interrupted P⟩ := by
    rw [← hout]
  obtain ⟨hst, hpend, hf, pre, rv₀, customs, hh⟩ :=
    traverseLoop_interrupted wf fuel _ _ none P hrun
  have hlook : lookupKey store₂ tid =
      some (traverseLoop wf fuel ⟨wf.entry, init, .running, none, []⟩ none).thread := by
    rw [hstore]
    exact lookupKey_setKey_same store tid _
  refine ⟨_, hlook, ⟨pre, rv₀, customs, by simpa using hh⟩, ?_⟩
  intro V g
  have hres := resumeThread_ok wf (g + 1) store₂ tid V _ hlook hst
  obtain ⟨f, hf⟩ := hf
  obtain ⟨ext, hx⟩ := traverseLoop_first_event wf g
    { (traverseLoop wf fuel ⟨wf.entry, init, .running, none, []⟩ none).thread with
        status := .running, pendingInterrupt := none } (some V) f hf
  refine ⟨_, _, _, ext, hres, lookupKey_setKey_same store₂ tid _, hx⟩

/-- C1 witness: the graph of
src/human-loop/graph_with_approve_and_change_state.py interrupts at
ask_for_review with the review-question payload, and resuming with the
answer yes re-invokes ask_for_review with that value. -/
theorem resume_reinvokes_interrupting_node_witness :
    ∃ store₂,
      startThread reviewGraph 3 [] "t" [] = .ok (.interrupted askReviewPayload, store₂) ∧
      ∃ ts₂, lookupKey store₂ "t" = some ts₂ ∧
        (∃ (pre : List Event) (rv₀ : Option Value) (customs : List Value),
          ts₂.history = pre ++ ⟨.started, some ts₂.currentNode, rv₀⟩ ::
            (customs.map fun q => Event.mk .custom (some ts₂.currentNode) (some q)) ++
            [⟨.interrupted, some ts₂.currentNode, some askReviewPayload⟩]) ∧
        ∃ out store₃ ts₃ ext,
          resumeThread reviewGraph 3 store₂ "t" (.str "yes") = .ok (out, store₃) ∧
          lookupKey store₃ "t" = some ts₃ ∧
          ts₃.history = ts₂.history ++
            ⟨.started, some ts₂.currentNode, some (.str "yes")⟩ :: ext := by
  obtain ⟨ts₂, hlook, hshape, hres⟩ :=
    resume_reinvokes_interrupting_node reviewGraph 3 [] "t" [] askReviewPayload _ rfl
  exact ⟨_, rfl, ts₂, hlook, hshape, hres (.str "yes") 2⟩

/-- Modelled from the spec: the Example 1 graph, A then B then END, where A
returns the update x = 1 and B returns the update y = 2. -/
def abGraph : WorkflowDefinition where
  nodes := [("A", fun _ _ => ([], .update [("x", .int 1)])),
            ("B", fun _ _ => ([], .update [("y", .int 2)]))]
  edges := [("A", .static "B"), ("B", .static endSentinel)]
  entry := "A"

/-- C3: merging a node's partial-state update U (a dict, so its keys are
distinct) gives every key of U the value U assigns to it and leaves every
key absent from U at its previous value; this mergeUpdate is exactly what
the engine applies to the thread's variables when a node returns an update
(see stepNode), and on the Example 1 graph, where A returns x = 1 and B
returns y = 2, start yields Completed of the state holding x = 1 and y = 2. -/
theorem merge_update_semantics (u vars : StateMap) (k : String)
    (hnd : (u.map Prod.fst).Nodup) :
    (∀ v, lookupKey u k = some v → lookupKey (mergeUpdate vars u) k = some v) ∧
    (lookupKey u k = none → lookupKey (mergeUpdate vars u) k = lookupKey vars k) ∧
    runResult (startThread abGraph 3 [] "t" []) =
      .ok (.completed [("x", .int 1), ("y", .int 2)]) := by
  refine ⟨?_, ?_, rfl⟩
  · intro v hv
    exact lookupKey_mergeUpdate_present u vars k v hnd hv
  · intro hv
    exact lookupKey_mergeUpdate_absent u vars k hv

/-- C3 witness: a one-key update merged into a one-key state overwrites its
own key and preserves the other. -/
theorem merge_update_semantics_witness :
    ([("a", Value.int 1)].map Prod.fst).Nodup ∧
    lookupKey (mergeUpdate [("b", .int 2)] [("a", .int 1)]) "a" = some (.int 1) ∧
    lookupKey (mergeUpdate [("b", .int 2)] [("a", .int 1)]) "b" = some (.int 2) := by
  refine ⟨by simp, ?_, ?_⟩
  · exact (merge_update_semantics [("a", .int 1)] [("b", .int 2)] "a" (by simp)).1
      (.int 1) rfl
  · exact ((merge_update_semantics [("a", .int 1)] [("b", .int 2)] "b" (by simp)).2.1
      rfl).trans rfl

/-- Modelled from the spec: the Example 3 graph — node R returns the update
decision = maybe, and a conditional edge routes on state.decision with the
table sending yes to Review and no to Finish. -/
def decisionGraph : WorkflowDefinition where
  nodes := [("R", fun _ _ => ([], .update [("decision", .str "maybe")])),
            ("Review", fun vars _ => ([], .update vars)),
            ("Finish", fun vars _ => ([], .update vars))]
  edges := [("R", .conditional
              (fun vars =>
                match lookupKey vars "decision" with
                | some (.str s) => .ok s
                | _ => .error "KeyError: decision")
              [("yes", "Review"), ("no", "Finish")])]
  entry := "R"

/-- C4: when the routing function of a conditional edge returns a label that
is not a key of the successor table, the traversal fails with a routing
error naming that label — the thread is marked failed and its history ends
with the failed event, so no successor node is invoked and no default branch
is taken; in particular, on the Example 3 graph, where R merges
decision = maybe and the table only maps yes and no, start fails with the
routing error for the label maybe. -/
theorem unmapped_label_is_routing_error (wf : WorkflowDefinition)
    (ts : ThreadState) (rv : Option Value) (f : NodeFn) (evs : List Value)
    (u : StateMap) (router : StateMap → Except String String)
    (table : List (String × String)) (lbl : String) (fuel : Nat)
    (hnode : lookupKey wf.nodes ts.currentNode = some f)
    (hinv : f ts.vars rv = (evs, .update u))
    (hedge : lookupKey wf.edges ts.currentNode = some (.conditional router table))
    (hroute : router (mergeUpdate ts.vars u) = .ok lbl)
    (htab : lookupKey table lbl = none) :
    traverseLoop wf (fuel + 1) ts rv =
      ⟨{ ts with
           status := .failed
           vars := mergeUpdate ts.vars u
           history := ts.history ++ ⟨.started, some ts.currentNode, rv⟩ ::
             (evs.map fun q => Event.mk .custom (some ts.currentNode) (some q)) ++
             [⟨.node_completed, some ts.currentNode, none⟩,
              ⟨.failed, some ts.currentNode, none⟩] },
        .failed ("unmapped label: " ++ lbl)⟩ ∧
    runResult (startThread decisionGraph 2 [] "t" []) =
      .ok (.failed "unmapped label: maybe") := by
  refine ⟨?_, rfl⟩
  simp [traverseLoop, stepNode, resolveNext, hnode, hinv, hedge, hroute, htab]

/-- C4 witness: the hypotheses hold concretely on the Example 3 graph at node
R, and the run fails with the routing error for the unmapped label maybe. -/
theorem unmapped_label_is_routing_error_witness :
    lookupKey decisionGraph.nodes "R" =
      some (fun _ _ => ([], .update [("decision", .str "maybe")])) ∧
    ∃ ts₂, traverseLoop decisionGraph 1 ⟨"R", [], .running, none, []⟩ none =
      ⟨ts₂, .failed "unmapped label: maybe"⟩ ∧ ts₂.status = .failed := by
  have h := (unmapped_label_is_routing_error decisionGraph
    ⟨"R", [], .running, none, []⟩ none
    (fun _ _ => ([], .update [("decision", .str "maybe")])) []
    [("decision", .str "maybe")]
    (fun vars =>
      match lookupKey vars "decision" with
      | some (.str s) => .ok s
      | _ => .error "KeyError: decision")
    [("yes", "Review"), ("no", "Finish")] "maybe" 0 rfl rfl rfl rfl rfl).1
  exact ⟨rfl, _, h, rfl⟩

/-- C5: resume on a thread whose stored status is not interrupted fails with
NotInterrupted before any node is invoked (the error is returned instead of
any traversal result, so no node runs and the store is not updated); in
particular, on the review graph, resuming a thread that has already
completed fails — starting, resuming with no (which completes the run), and
then resuming a second time with the same value yields NotInterrupted
rather than re-executing the workflow. -/
theorem resume_not_interrupted_fails (wf : WorkflowDefinition) (fuel : Nat)
    (store : Store) (tid : String) (V : Value) (ts : ThreadState)
    (h₁ : lookupKey store tid = some ts) (h₂ : ts.status ≠ .interrupted) :
    resumeThread wf fuel store tid V = .error .notInterrupted ∧
    ∃ store₂,
      startThread reviewGraph 3 [] "t" [] =
        .ok (.interrupted askReviewPayload, store₂) ∧
      runResult (resumeThread reviewGraph 3 store₂ "t" (.str "no")) =
        .ok (.completed
          [("summary", .str "The cat sat on the mat and looked at the stars."),
           ("review_decision", .str "no")]) ∧
      ∃ store₃,
        runStore (resumeThread reviewGraph 3 store₂ "t" (.str "no")) = some store₃ ∧
        resumeThread reviewGraph 3 store₃ "t" (.str "no") =
          .error .notInterrupted := by
  constructor
  · unfold resumeThread
    rw [h₁]
    simp [h₂]
  · exact ⟨_, rfl, rfl, _, rfl, rfl⟩

/-- C5 witness: a stored thread in status completed makes resume fail with
NotInterrupted. -/
theorem resume_not_interrupted_fails_witness :
    lookupKey [("t", (⟨"finish", [], .completed, none, []⟩ : ThreadState))] "t" =
      some (⟨"finish", [], .completed, none, []⟩ : ThreadState) ∧
    resumeThread reviewGraph 3
      [("t", (⟨"finish", [], .completed, none, []⟩ : ThreadState))] "t" (.str "no") =
      .error .notInterrupted :=
  ⟨rfl, (resume_not_interrupted_fails reviewGraph 3
    [("t", (⟨"finish", [], .completed, none, []⟩ : ThreadState))] "t" (.str "no")
    (⟨"finish", [], .completed, none, []⟩ : ThreadState) rfl (by decide)).1⟩

/-- C6: whenever the pure fold of the node functions over the initial state
in traversal order (invoke the node, merge its update, move to the
successor, until the terminal sentinel) reaches the sentinel with final
state F — that is, no node interrupts or errors during the run — start on a
startable thread id returns Completed(F): the engine run is equivalent to
the pure fold. -/
theorem start_equals_pure_fold (wf : WorkflowDefinition) (fuel : Nat)
    (store : Store) (tid : String) (init final : StateMap)
    (h₁ : pureFold wf fuel wf.entry init = some final)
    (h₂ : canStart store tid = true) :
    runResult (startThread wf fuel store tid init) = .ok (.completed final) := by
  have hout := pureFold_sim wf fuel wf.entry init final .running none [] h₁
  unfold startThread
  rw [h₂]
  simp [runResult, hout, Except.map]

/-- C6 witness: the graph of src/dynamic_interrupts/graphwith_files.py with a
non-empty input content never interrupts; its pure fold returns the initial
state unchanged, and start completes with that state. -/
theorem start_equals_pure_fold_witness :
    pureFold filesGraph 5 filesGraph.entry
      [("sas_content", .str "s"), ("input_content", .str "d"),
       ("output_content", .str "o")] =
      some [("sas_content", .str "s"), ("input_content", .str "d"),
            ("output_content", .str "o")] ∧
    canStart [] "t" = true ∧
    runResult (startThread filesGraph 5 [] "t"
      [("sas_content", .str "s"), ("input_content", .str "d"),
       ("output_content", .str "o")]) =
      .ok (.completed [("sas_content", .str "s"), ("input_content", .str "d"),
                       ("output_content", .str "o")]) :=
  ⟨rfl, rfl, start_equals_pure_fold filesGraph 5 [] "t" _ _ rfl rfl⟩

/-- C7: a conditional edge taken after a node completes with update U applies
the routing function to the post-merge state (the variables after U has been
merged in) and hands control to the successor-table entry for the returned
label: the next started event after the node-completed event names exactly
that successor; in particular, on the review graph, the router reads the
review_decision that ask_for_review merged immediately before, and resuming
the interrupted review thread with yes routes to human_review. -/
theorem conditional_edge_routes_post_merge (wf : WorkflowDefinition)
    (ts : ThreadState) (rv : Option Value) (f g : NodeFn) (evs : List Value)
    (u : StateMap) (router : StateMap → Except String String)
    (table : List (String × String)) (lbl nxt : String) (fuel : Nat)
    (hnode : lookupKey wf.nodes ts.currentNode = some f)
    (hinv : f ts.vars rv = (evs, .update u))
    (hedge : lookupKey wf.edges ts.currentNode = some (.conditional router table))
    (hroute : router (mergeUpdate ts.vars u) = .ok lbl)
    (htab : lookupKey table lbl = some nxt)
    (hne : nxt ≠ endSentinel)
    (hg : lookupKey wf.nodes nxt = some g) :
    (∃ ext, (traverseLoop wf (fuel + 2) ts rv).thread.history =
      ts.history ++ ⟨.started, some ts.currentNode, rv⟩ ::
        (evs.map fun q => Event.mk .custom (some ts.currentNode) (some q)) ++
        ⟨.node_completed, some ts.currentNode, none⟩ ::
        ⟨.started, some nxt, none⟩ :: ext) ∧
    (∃ store₂,
      startThread reviewGraph 3 [] "t" [] =
        .ok (.interrupted askReviewPayload, store₂) ∧
      runResult (resumeThread reviewGraph 3 store₂ "t" (.str "yes")) =
        .ok (.interrupted humanReviewPayload) ∧
      ∃ store₃, runStore (resumeThread reviewGraph 3 store₂ "t" (.str "yes")) =
          some store₃ ∧
        ∃ ts₃, lookupKey store₃ "t" = some ts₃ ∧
          ts₃.currentNode = "human_review" ∧
          lookupKey ts₃.vars "review_decision" = some (.str "yes")) := by
  constructor
  · have hstep : stepNode wf ts rv = .next
        { ts with
            vars := mergeUpdate ts.vars u
            currentNode := nxt
            history := ts.history ++ ⟨.started, some ts.currentNode, rv⟩ ::
              (evs.map fun q => Event.mk .custom (some ts.currentNode) (some q)) ++
              [⟨.node_completed, some ts.currentNode, none⟩] } := by
      simp [stepNode, resolveNext, hnode, hinv, hedge, hroute, htab, hne]
    have hred : traverseLoop wf (fuel + 2) ts rv = traverseLoop wf (fuel + 1)
        { ts with
            vars := mergeUpdate ts.vars u
            currentNode := nxt
            history := ts.history ++ ⟨.started, some ts.currentNode, rv⟩ ::
              (evs.map fun q => Event.mk .custom (some ts.currentNode) (some q)) ++
              [⟨.node_completed, some ts.currentNode, none⟩] } none := by
      show traverseLoop wf (fuel + 1 + 1) ts rv = _
      rw [traverseLoop]
      rw [hstep]
    obtain ⟨ext, hx⟩ := traverseLoop_first_event wf fuel
      { ts with
          vars := mergeUpdate ts.vars u
          currentNode := nxt
          history := ts.history ++ ⟨.started, some ts.currentNode, rv⟩ ::
            (evs.map fun q => Event.mk .custom (some ts.currentNode) (some q)) ++
            [⟨.node_completed, some ts.currentNode, none⟩] } none g hg
    refine ⟨ext, ?_⟩
    rw [hred, hx]
    simp
  · exact ⟨_, rfl, rfl, _, rfl, _, rfl, rfl, rfl⟩

/-- C7 witness: at ask_for_review with resume value yes, the router sees the
just-merged review_decision and the traversal invokes human_review next. -/
theorem conditional_edge_routes_post_merge_witness :
    lookupKey reviewGraph.nodes "ask_for_review" = some ask_for_review ∧
    ask_for_review [("summary", .str "The cat sat on the mat and looked at the stars.")]
        (some (.str "yes")) = ([], .update [("review_decision", .str "yes")]) ∧
    route_based_on_decision
        (mergeUpdate [("summary", .str "The cat sat on the mat and looked at the stars.")]
          [("review_decision", .str "yes")]) = .ok "review" ∧
    ∃ ext, (traverseLoop reviewGraph 2
        ⟨"ask_for_review",
         [("summary", .str "The cat sat on the mat and looked at the stars.")],
         .running, none, []⟩ (some (.str "yes"))).thread.history =
      ⟨.started, some "ask_for_review", some (.str "yes")⟩ ::
        ⟨.node_completed, some "ask_for_review", none⟩ ::
        ⟨.started, some "human_review", none⟩ :: ext := by
  refine ⟨rfl, rfl, rfl, ?_⟩
  exact (conditional_edge_routes_post_merge reviewGraph
    ⟨"ask_for_review",
     [("summary", .str "The cat sat on the mat and looked at the stars.")],
     .running, none, []⟩ (some (.str "yes")) ask_for_review human_review []
    [("review_decision", .str "yes")] route_based_on_decision
    [("review", "human_review"), ("skip", "finish")] "review" "human_review" 0
    rfl rfl rfl rfl rfl (by decide) rfl).1

/-- C8: runs are keyed by thread id and do not interfere — the outcome of
start or resume for a thread id depends only on that thread's own stored
snapshot (two stores agreeing on the thread's entry give identical
outcomes, whatever the other threads hold), and the run leaves every other
thread id's snapshot — its variables and its event history — untouched. -/
theorem thread_noninterference (wf : WorkflowDefinition) (fuel : Nat)
    (t₁ t₂ : String) (store₁ store₂ : Store) (init : StateMap) (v : Value)
    (hne : t₁ ≠ t₂) (hsame : lookupKey store₁ t₁ = lookupKey store₂ t₁) :
    runResult (startThread wf fuel store₁ t₁ init) =
      runResult (startThread wf fuel store₂ t₁ init) ∧
    (∀ out store₁b, startThread wf fuel store₁ t₁ init = .ok (out, store₁b) →
       lookupKey store₁b t₂ = lookupKey store₁ t₂) ∧
    runResult (resumeThread wf fuel store₁ t₁ v) =
      runResult (resumeThread wf fuel store₂ t₁ v) ∧
    (∀ out store₁b, resumeThread wf fuel store₁ t₁ v = .ok (out, store₁b) →
       lookupKey store₁b t₂ = lookupKey store₁ t₂) := by
  have hcs : canStart store₁ t₁ = canStart store₂ t₁ := by
    unfold canStart
    rw [hsame]
  refine ⟨?_, ?_, ?_, ?_⟩
  · unfold startThread runResult
    rw [hcs]
    by_cases hc : canStart store₂ t₁ <;> simp [hc, Except.map]
  · intro out store₁b h
    obtain ⟨-, hstore⟩ := startThread_ok wf fuel store₁ t₁ init out store₁b h
    rw [hstore]
    exact lookupKey_setKey_other store₁ t₁ t₂ _ hne
  · unfold resumeThread runResult
    rw [hsame]
    rcases lookupKey store₂ t₁ with _ | ts
    · simp
    · by_cases hs : ts.status = .interrupted <;> simp [hs, Except.map]
  · intro out store₁b h
    unfold resumeThread at h
    rcases hl : lookupKey store₁ t₁ with _ | ts
    · rw [hl] at h
      cases h
    · rw [hl] at h
      by_cases hs : ts.status = .interrupted
      · simp only [hs, if_true] at h
        obtain ⟨-, hstore⟩ := Prod.mk.injEq .. ▸ Except.ok.inj h
        rw [← hstore]
        exact lookupKey_setKey_other store₁ t₁ t₂ _ hne
      · simp [hs] at h

/-- C8 witness: starting thread a over an empty store and over a store that
holds an unrelated thread b gives the same outcome, and does not touch b's
entry. -/
theorem thread_noninterference_witness :
    ("a" ≠ "b") ∧
    lookupKey ([] : Store) "a" =
      lookupKey [("b", (⟨"finish", [], .completed, none, []⟩ : ThreadState))] "a" ∧
    runResult (startThread reviewGraph 3 [] "a" []) =
      runResult (startThread reviewGraph 3
        [("b", (⟨"finish", [], .completed, none, []⟩ : ThreadState))] "a" []) ∧
    ∃ out store₁b, startThread reviewGraph 3 [] "a" [] = .ok (out, store₁b) ∧
      lookupKey store₁b "b" = lookupKey ([] : Store) "b" := by
  have h := thread_noninterference reviewGraph 3 "a" "b" []
    [("b", (⟨"finish", [], .completed, none, []⟩ : ThreadState))] [] (.str "x")
    (by decide) rfl
  refine ⟨by decide, rfl, h.1, _, _, rfl, h.2.1 _ _ rfl⟩

/-- C9: the event history of a thread is append-only — every traversal (which
performs the node completions, interrupts and completions of a run) only
extends the history it was given, and a resume call only extends the stored
history of the thread it resumes; previously recorded events are never
removed, truncated or reordered, since the old history is an unchanged
prefix of the new one. -/
theorem history_append_only (wf : WorkflowDefinition) :
    (∀ (fuel : Nat) (ts : ThreadState) (rv : Option Value),
       ∃ ext, (traverseLoop wf fuel ts rv).thread.history = ts.history ++ ext) ∧
    (∀ (fuel : Nat) (store : Store) (tid : String) (v : Value)
       (out : RunOutcome) (store₂ : Store) (ts ts₂ : ThreadState),
       lookupKey store tid = some ts →
       resumeThread wf fuel store tid v = .ok (out, store₂) →
       lookupKey store₂ tid = some ts₂ →
       ∃ ext, ts₂.history = ts.history ++ ext) := by
  refine ⟨traverseLoop_history wf, ?_⟩
  intro fuel store tid v out store₂ ts ts₂ h₁ h₂ h₃
  unfold resumeThread at h₂
  rw [h₁] at h₂
  by_cases hs : ts.status = .interrupted
  · simp only [hs, if_true] at h₂
    obtain ⟨-, hstore⟩ := Prod.mk.injEq .. ▸ Except.ok.inj h₂
    rw [← hstore] at h₃
    rw [lookupKey_setKey_same] at h₃
    obtain ⟨ext, hx⟩ := traverseLoop_history wf fuel
      { ts with status := .running, pendingInterrupt := none } (some v)
    refine ⟨ext, ?_⟩
    obtain rfl := Option.some.inj h₃
    exact hx
  · simp [hs] at h₂

/-- A review-graph thread snapshot stopped at the ask_for_review interrupt,
used to exercise resume. -/
def demoInterruptedTS : ThreadState :=
  ⟨"ask_for_review", [("summary", .str "s")], .interrupted, some (.str "p"),
   [⟨.interrupted, some "ask_for_review", some (.str "p")⟩]⟩

/-- C9 witness: resuming an interrupted review thread extends its stored
history. -/
theorem history_append_only_witness :
    lookupKey [("t", demoInterruptedTS)] "t" = some demoInterruptedTS ∧
    ∃ out store₃ ts₃,
      resumeThread reviewGraph 2 [("t", demoInterruptedTS)] "t" (.str "no") =
        .ok (out, store₃) ∧
      lookupKey store₃ "t" = some ts₃ ∧
      ∃ ext, ts₃.history = demoInterruptedTS.history ++ ext := by
  refine ⟨rfl, ?_⟩
  obtain ⟨ext, hx⟩ := (history_append_only reviewGraph).2 2
    [("t", demoInterruptedTS)] "t" (.str "no") _ _ _ _ rfl rfl rfl
  exact ⟨_, _, _, rfl, rfl, ext, hx⟩

theorem xlsx_not_txt_csv (l : List Char)
    (h : isPrefixB ".xlsx".data.reverse l = true) :
    isPrefixB ".txt".data.reverse l = false ∧
    isPrefixB ".csv".data.reverse l = false := by
  have h₂ : isPrefixB (Char.ofNat 120 :: [Char.ofNat 115, Char.ofNat 108,
      Char.ofNat 120, Char.ofNat 46]) l = true := h
  cases l with
  | nil => simp [isPrefixB] at h₂
  | cons c cs =>
      simp only [isPrefixB, Bool.and_eq_true, decide_eq_true_eq] at h₂
      obtain ⟨rfl, -⟩ := h₂
      constructor
      · show isPrefixB (Char.ofNat 116 :: _) (Char.ofNat 120 :: cs) = false
        simp [isPrefixB]
      · show isPrefixB (Char.ofNat 118 :: _) (Char.ofNat 120 :: cs) = false
        simp [isPrefixB]

/-- C10: on every uploaded file whose lowercased name ends with .xlsx,
read_file_content raises NameError (the xlsx branch references BytesIO,
which is never imported) instead of returning the spreadsheet as CSV text,
while on every other name — the .txt/.csv branch and the plain-text
fallback — it returns the decoded string without raising (the decode with
errors ignored is total). -/
theorem read_file_content_xlsx_raises (decode : List Nat → String)
    (name : String) (data : List Nat) :
    (pyEndsWith (pyLower name) ".xlsx" = true →
       read_file_content decode name data = .error .nameError) ∧
    (pyEndsWith (pyLower name) ".xlsx" = false →
       read_file_content decode name data = .ok (decode data)) := by
  constructor
  · intro hx
    obtain ⟨ht, hc⟩ := xlsx_not_txt_csv ((pyLower name).data.reverse) hx
    have ht' : pyEndsWith (pyLower name) ".txt" = false := ht
    have hc' : pyEndsWith (pyLower name) ".csv" = false := hc
    simp [read_file_content, ht', hc', hx]
  · intro hx
    unfold read_file_content
    simp only [hx, if_false, Bool.false_eq_true]
    split <;> rfl

/-- C10 witness: a file named a.XLSX hits the NameError branch, and a file
named b.txt is decoded and returned. -/
theorem read_file_content_xlsx_raises_witness :
    pyEndsWith (pyLower "a.XLSX") ".xlsx" = true ∧
    read_file_content (fun _ => "text") "a.XLSX" [] = .error .nameError ∧
    pyEndsWith (pyLower "b.txt") ".xlsx" = false ∧
    read_file_content (fun _ => "text") "b.txt" [] = .ok "text" :=
  ⟨rfl, (read_file_content_xlsx_raises (fun _ => "text") "a.XLSX" []).1 rfl,
   rfl, (read_file_content_xlsx_raises (fun _ => "text") "b.txt" []).2 rfl⟩
